import Mathlib

/-!
Verification of the cluster consolidation and cost-reconciliation engine
(clusters.py, reconcile.py) against its natural-language specification.

Modelling conventions used throughout this file:
* Python sets of strings are modelled as `Finset String`.
* Python floats are modelled as `ℤ`; the only operations the engine performs
  on costs are addition, comparison and the identity coercion `float(x)` on an
  already-numeric value, all of which are exact.
* Python dicts are modelled as association lists (`List (α × β)`) with
  insertion-order semantics: assignment to an existing key updates the first
  matching entry in place, assignment to a fresh key appends at the end, and
  iteration over keys/values follows list order.
* Python object identity for mutable `Cluster` objects is modelled with a heap
  `Nat → Cluster` indexed by object ids; the tracking index
  (clusters_by_tracking) stores ids, so mutation through one alias is visible
  through every other alias, exactly as in the source.
-/

namespace OrderTracking

/-- The Cluster entity from clusters.py.  The field `non_reimbursed_trackings`
is absent in Python until fill_costs_new assigns it; it is modelled here as an
always-present field initialised to the empty set. -/
structure Cluster where
  orders : Finset String
  trackings : Finset String
  group : Option String
  expected_cost : ℤ
  tracked_cost : ℤ
  last_ship_date : String
  purchase_orders : Finset String
  non_reimbursed_trackings : Finset String := ∅
deriving DecidableEq

instance : Inhabited Cluster :=
  ⟨{ orders := ∅, trackings := ∅, group := none, expected_cost := 0,
     tracked_cost := 0, last_ship_date := "0", purchase_orders := ∅ }⟩

/-- Cluster.merge_with (clusters.py lines 67-74): unions the id sets, adds the
costs, takes the max ship date.  The receiver keeps its own group and its own
non_reimbursed_trackings, which merge_with does not touch. -/
def Cluster.merge_with (self other : Cluster) : Cluster :=
  { self with
    orders := self.orders ∪ other.orders
    trackings := self.trackings ∪ other.trackings
    expected_cost := self.expected_cost + other.expected_cost
    tracked_cost := self.tracked_cost + other.tracked_cost
    last_ship_date := max self.last_ship_date other.last_ship_date
    purchase_orders := self.purchase_orders ∪ other.purchase_orders }

/-- The tabular row emitted by Cluster.to_row: seven ordered fields.
from_row reads rows of length at least 7 with `group := row[6]`; the legacy
short-row branch (group := None when len(row) < 7) is not representable in
this fixed seven-field shape, which is the shape to_row always produces. -/
structure Row where
  orders_csv : String
  trackings_csv : String
  expected_cost : ℤ
  tracked_cost : ℤ
  last_ship_date : String
  pos_csv : String
  group : Option String
deriving DecidableEq

/-- Python ",".join over a set; set iteration order is arbitrary in Python, so
we fix the ascending order on the elements. -/
def joinSet (s : Finset String) : String :=
  String.intercalate "," (s.sort (· ≤ ·))

/-- Python set(s.split(",")). -/
def splitSet (s : String) : Finset String :=
  (s.splitOn ",").toFinset

/-- Cluster.to_row (clusters.py lines 60-65). -/
def Cluster.to_row (c : Cluster) : Row :=
  { orders_csv := joinSet c.orders
    trackings_csv := joinSet c.trackings
    expected_cost := c.expected_cost
    tracked_cost := c.tracked_cost
    last_ship_date := c.last_ship_date
    pos_csv := joinSet c.purchase_orders
    group := c.group }

/-- from_row (clusters.py lines 8-21).  The source parses every field,
constructs the cluster via _initiate, and then falls off the end of the
function without a return statement, so the caller receives None; the
constructed cluster is mirrored in the unused local below. -/
def from_row (row : Row) : Option Cluster :=
  let orders := splitSet row.orders_csv
  let trackings := splitSet row.trackings_csv
  let expected_cost := row.expected_cost
  let tracked_cost := row.tracked_cost
  let last_ship_date := row.last_ship_date
  let pos := splitSet row.pos_csv
  let group := row.group
  let _cluster : Cluster :=
    { orders := orders, trackings := trackings, group := group,
      expected_cost := expected_cost, tracked_cost := tracked_cost,
      last_ship_date := last_ship_date, purchase_orders := pos }
  none

/-- dedupe_clusters (clusters.py lines 77-84): keep a cluster when its
trackings do not intersect the trackings seen so far, first-seen wins. -/
def dedupe_clusters (clusters : List Cluster) : List Cluster :=
  (clusters.foldl
    (fun acc c =>
      if c.trackings ∩ acc.2 = ∅ then (acc.1 ++ [c], acc.2 ∪ c.trackings)
      else acc)
    ([], ∅)).1

/-- Linear first-match scan returning the position of the first element
satisfying the predicate; positions stand for the object references the Python
code returns so that later mutation of the found object can be expressed. -/
def find_first_idx (p : Cluster → Bool) : List Cluster → Option Nat
  | [] => none
  | c :: cs => if p c then some 0 else (find_first_idx p cs).map (· + 1)

/-- find_by_purchase_orders (clusters.py lines 146-156): a cluster with empty
purchase_orders never matches; otherwise return the first already-placed
cluster whose purchase_orders intersect the probe cluster's. -/
def find_by_purchase_orders (cluster : Cluster) (all_clusters : List Cluster) :
    Option Nat :=
  if cluster.purchase_orders = ∅ then none
  else find_first_idx
    (fun cand => decide (cand.purchase_orders ∩ cluster.purchase_orders ≠ ∅))
    all_clusters

/-- One step of run_merge_iteration's loop body: merge the current cluster
into the found candidate (mutating the candidate in place) or append it. -/
def run_merge_step (result : List Cluster) (cluster : Cluster) : List Cluster :=
  match find_by_purchase_orders cluster result with
  | some i => result.set i ((result.getD i default).merge_with cluster)
  | none => result ++ [cluster]

/-- run_merge_iteration (clusters.py lines 135-143). -/
def run_merge_iteration (clusters : List Cluster) : List Cluster :=
  clusters.foldl run_merge_step []

/-- Length bookkeeping for the fold inside run_merge_iteration: the result is
never longer than accumulator plus input, and reaches that bound only when no
merge occurred, in which case every cluster was appended unchanged. -/
lemma run_merge_fold_length (cs : List Cluster) :
    ∀ acc : List Cluster,
      (cs.foldl run_merge_step acc).length ≤ acc.length + cs.length ∧
      ((cs.foldl run_merge_step acc).length = acc.length + cs.length →
        cs.foldl run_merge_step acc = acc ++ cs) := by
  induction cs with
  | nil => intro acc; simp
  | cons c cs ih =>
      intro acc
      simp only [List.foldl_cons, List.length_cons]
      rcases h : find_by_purchase_orders c acc with _ | i
      · have hstep : run_merge_step acc c = acc ++ [c] := by
          simp [run_merge_step, h]
        rw [hstep]
        obtain ⟨hle, heq⟩ := ih (acc ++ [c])
        have hlen1 : (acc ++ [c]).length = acc.length + 1 := by simp
        refine ⟨by omega, ?_⟩
        intro hlenEq
        have h2 := heq (by omega)
        rw [h2, List.append_assoc]
        simp
      · have hstep : run_merge_step acc c =
            acc.set i ((acc.getD i default).merge_with c) := by
          simp [run_merge_step, h]
        rw [hstep]
        obtain ⟨hle, _⟩ := ih (acc.set i ((acc.getD i default).merge_with c))
        have hsetlen : (acc.set i ((acc.getD i default).merge_with c)).length
            = acc.length := List.length_set ..
        refine ⟨by omega, ?_⟩
        intro hlenEq
        exfalso
        omega

/-- Each merge iteration returns a list no longer than its input. -/
lemma run_merge_iteration_length_le_aux (clusters : List Cluster) :
    (run_merge_iteration clusters).length ≤ clusters.length := by
  have := (run_merge_fold_length clusters []).1
  simpa [run_merge_iteration] using this

/-- Claim C9: merge_by_purchase_orders terminates for every finite input
cluster list because each call to run_merge_iteration returns a list whose
length is at most its input's length; the totality of merge_by_purchase_orders
below rests on exactly this bound. -/
theorem run_merge_iteration_length_le (clusters : List Cluster) :
    (run_merge_iteration clusters).length ≤ clusters.length :=
  run_merge_iteration_length_le_aux clusters

/-- If an iteration does not change the cluster count then no merge occurred
and the iteration returns its input unchanged. -/
lemma run_merge_iteration_of_length_eq (clusters : List Cluster)
    (h : (run_merge_iteration clusters).length = clusters.length) :
    run_merge_iteration clusters = clusters := by
  have := (run_merge_fold_length clusters []).2
  simpa [run_merge_iteration] using this (by simpa [run_merge_iteration] using h)

/-- merge_by_purchase_orders (clusters.py lines 126-132): iterate
run_merge_iteration until the length stabilises. -/
def merge_by_purchase_orders (clusters : List Cluster) : List Cluster :=
  if h : (run_merge_iteration clusters).length = clusters.length then
    run_merge_iteration clusters
  else
    merge_by_purchase_orders (run_merge_iteration clusters)
termination_by clusters.length
decreasing_by
  exact lt_of_le_of_ne (run_merge_iteration_length_le_aux clusters) h

/-- The output of merge_by_purchase_orders is a fixed point of a single merge
iteration. -/
lemma run_merge_iteration_merge_fix :
    ∀ n (clusters : List Cluster), clusters.length ≤ n →
      run_merge_iteration (merge_by_purchase_orders clusters) =
        merge_by_purchase_orders clusters := by
  intro n
  induction n with
  | zero =>
      intro cs hlen
      have hnil : cs = [] := List.length_eq_zero.mp (Nat.le_zero.mp hlen)
      subst hnil
      rw [merge_by_purchase_orders]
      simp [run_merge_iteration]
  | succ n ih =>
      intro cs hlen
      rw [merge_by_purchase_orders]
      by_cases h : (run_merge_iteration cs).length = cs.length
      · rw [dif_pos h]
        have hfix := run_merge_iteration_of_length_eq cs h
        rw [hfix]
        exact hfix
      · rw [dif_neg h]
        have hlt : (run_merge_iteration cs).length < cs.length :=
          lt_of_le_of_ne (run_merge_iteration_length_le_aux cs) h
        exact ih (run_merge_iteration cs) (by omega)

/-- Claim C4: merge_by_purchase_orders applied to its own output equals its
output; the returned collection is a fixed point of the merge loop. -/
theorem merge_by_purchase_orders_idempotent (clusters : List Cluster) :
    merge_by_purchase_orders (merge_by_purchase_orders clusters) =
      merge_by_purchase_orders clusters := by
  have hfix := run_merge_iteration_merge_fix clusters.length clusters le_rfl
  rw [merge_by_purchase_orders, dif_pos (by rw [hfix])]
  exact hfix

/-- A concrete, fully populated cluster used to evaluate the serialization
round trip. -/
def c1ExampleCluster : Cluster :=
  { orders := {"o1"}, trackings := {"t1"}, group := some "g",
    expected_cost := 5, tracked_cost := 7, last_ship_date := "2020-01-01",
    purchase_orders := {"p1"} }

/-- Claim C1 (code evaluated at the failing input): serializing a concrete
cluster with to_row and parsing back with from_row yields None, not a cluster,
because from_row builds the cluster and then returns without it; the claimed
round trip therefore fails for every cluster. -/
theorem from_row_to_row_returns_none :
    from_row (Cluster.to_row c1ExampleCluster) = none := rfl

/-- The dedup scan retains exactly the input clusters, in order; membership in
the output implies membership in the input. -/
lemma dedupe_fold_mem {c : Cluster} :
    ∀ (cs : List Cluster) (acc : List Cluster × Finset String),
      c ∈ (cs.foldl
        (fun acc c =>
          if c.trackings ∩ acc.2 = ∅ then (acc.1 ++ [c], acc.2 ∪ c.trackings)
          else acc) acc).1 →
      c ∈ acc.1 ∨ c ∈ cs := by
  intro cs
  induction cs with
  | nil => intro acc h; exact Or.inl h
  | cons d cs ih =>
      intro acc h
      simp only [List.foldl_cons] at h
      by_cases hd : d.trackings ∩ acc.2 = ∅
      · rw [if_pos hd] at h
        rcases ih _ h with h1 | h1
        · rcases List.mem_append.mp h1 with h2 | h2
          · exact Or.inl h2
          · have : c = d := by simpa using h2
            exact Or.inr (by simp [this])
        · exact Or.inr (List.mem_cons_of_mem _ h1)
      · rw [if_neg hd] at h
        rcases ih _ h with h1 | h1
        · exact Or.inl h1
        · exact Or.inr (List.mem_cons_of_mem _ h1)

/-- Every cluster retained by dedupe_clusters comes from the input list. -/
lemma mem_of_mem_dedupe {c : Cluster} {cs : List Cluster}
    (h : c ∈ dedupe_clusters cs) : c ∈ cs := by
  rcases dedupe_fold_mem cs ([], ∅) h with h1 | h1
  · simpa using h1
  · exact h1

/-- A cluster with no trackings at all. -/
def c6EmptyCluster : Cluster :=
  { orders := {"o1"}, trackings := ∅, group := some "g",
    expected_cost := 0, tracked_cost := 0, last_ship_date := "0",
    purchase_orders := ∅ }

/-- Claim C6 counterexample: a cluster with an empty trackings set has empty
intersection with every seen-set, so dedupe_clusters retains it; the claim
that every retained cluster has non-empty trackings is false. -/
theorem dedupe_keeps_empty_trackings_cluster :
    dedupe_clusters [c6EmptyCluster] = [c6EmptyCluster] ∧
      c6EmptyCluster.trackings = ∅ := by decide

/-- Claim C6 (amended): deduplication never invents empty clusters — whenever
every input cluster has a non-empty trackings set, so does every retained
cluster; but a cluster whose trackings set is already empty is always
retained by dedupe_clusters, not dropped. -/
theorem dedupe_nonempty_trackings (cs : List Cluster)
    (h : ∀ c ∈ cs, c.trackings ≠ ∅) :
    ∀ c ∈ dedupe_clusters cs, c.trackings ≠ ∅ := by
  intro c hc
  exact h c (mem_of_mem_dedupe hc)

/-- Witness for the amended claim C6 at a concrete input. -/
theorem dedupe_nonempty_trackings_witness :
    c1ExampleCluster.trackings ≠ ∅ :=
  dedupe_nonempty_trackings [c1ExampleCluster] (by decide)
    c1ExampleCluster (by decide)

/-! ## Association-list model of Python dicts -/

/-- Python dict assignment: update the first entry holding the key in place,
or append a fresh entry at the end. -/
def dictSet {α β : Type} [DecidableEq α] : List (α × β) → α → β → List (α × β)
  | [], k, v => [(k, v)]
  | p :: rest, k, v =>
      if p.1 = k then (k, v) :: rest else p :: dictSet rest k v

/-- Python dict lookup. -/
def dictLookup {α β : Type} [DecidableEq α] : List (α × β) → α → Option β
  | [], _ => none
  | p :: rest, k => if p.1 = k then some p.2 else dictLookup rest k

/-- Python dict.update(other): assign every entry of other, in order. -/
def dictUpdate {α β : Type} [DecidableEq α]
    (m other : List (α × β)) : List (α × β) :=
  other.foldl (fun acc p => dictSet acc p.1 p.2) m

/-- Python set(m1.keys()).intersection(m2.keys()) is non-empty. -/
def dictOverlap {α β γ : Type} [DecidableEq α]
    (m1 : List (α × β)) (m2 : List (α × γ)) : Bool :=
  m1.any (fun p => m2.any (fun q => q.1 = p.1))

lemma dictOverlap_iff {α β γ : Type} [DecidableEq α]
    (m1 : List (α × β)) (m2 : List (α × γ)) :
    dictOverlap m1 m2 = true ↔
      ∃ k, k ∈ m1.map Prod.fst ∧ k ∈ m2.map Prod.fst := by
  simp only [dictOverlap, List.any_eq_true, decide_eq_true_eq, List.mem_map]
  constructor
  · rintro ⟨p, hp, q, hq, hk⟩
    exact ⟨p.1, ⟨p, hp, rfl⟩, ⟨q, hq, hk⟩⟩
  · rintro ⟨k, ⟨p, hp, hk1⟩, ⟨q, hq, hk2⟩⟩
    exact ⟨p, hp, q, hq, by rw [hk1, hk2]⟩

/-! ## Non-portal reimbursements (reconcile.py lines 40-61) -/

/-- The data held by a NonPortalReimbursements object as consumed by
apply_non_portal_reimbursements: a map from tracking tuple to cost data and a
map from purchase order to cost.  The object itself lives in an excluded
collaborator module; only these two dict attributes are read. -/
structure NonPortalReimbursements where
  trackings_to_costs : List (List String × (String × ℤ))
  po_to_cost : List (String × ℤ)

/-- Whether an Except value is the error case. -/
def isError {ε α : Type} : Except ε α → Bool
  | Except.error _ => true
  | Except.ok _ => false

/-- apply_non_portal_reimbursements (reconcile.py lines 40-61), modelled with
explicit state passing: the first component is the control outcome (normal
return or raised exception) and the second holds the final contents of the two
dict arguments the Python code mutates in place.  The source checks the
tracking-tuple overlap first, then the purchase-order overlap, and only after
both checks pass performs the two dict.update calls. -/
def apply_non_portal_reimbursements (npr : NonPortalReimbursements)
    (trackings_to_costs_map : List (List String × (String × ℤ)))
    (po_to_cost_map : List (String × ℤ)) :
    Except String Unit ×
      (List (List String × (String × ℤ)) × List (String × ℤ)) :=
  if dictOverlap npr.trackings_to_costs trackings_to_costs_map then
    (Except.error "Non-reimbursed trackings should not be duplicated in a portal",
      (trackings_to_costs_map, po_to_cost_map))
  else if dictOverlap npr.po_to_cost po_to_cost_map then
    (Except.error "Non-reimbursed POs should not be duplicated in a portal",
      (trackings_to_costs_map, po_to_cost_map))
  else
    (Except.ok (),
      (dictUpdate trackings_to_costs_map npr.trackings_to_costs,
        dictUpdate po_to_cost_map npr.po_to_cost))

/-- Claim C3: apply_non_portal_reimbursements raises exactly when some
tracking tuple or some purchase-order key occurs both in the non-portal data
and in the portal-derived map, and on every raise the two maps are returned
exactly as they came in — no merge has happened. -/
theorem apply_non_portal_reimbursements_spec (npr : NonPortalReimbursements)
    (t2c : List (List String × (String × ℤ))) (po2c : List (String × ℤ)) :
    (isError (apply_non_portal_reimbursements npr t2c po2c).1 = true ↔
      ((∃ k, k ∈ npr.trackings_to_costs.map Prod.fst ∧ k ∈ t2c.map Prod.fst) ∨
       (∃ k, k ∈ npr.po_to_cost.map Prod.fst ∧ k ∈ po2c.map Prod.fst))) ∧
    (isError (apply_non_portal_reimbursements npr t2c po2c).1 = true →
      (apply_non_portal_reimbursements npr t2c po2c).2 = (t2c, po2c)) := by
  by_cases h1 : dictOverlap npr.trackings_to_costs t2c = true
  · have hres : apply_non_portal_reimbursements npr t2c po2c =
        (Except.error
          "Non-reimbursed trackings should not be duplicated in a portal",
          (t2c, po2c)) := by
      simp [apply_non_portal_reimbursements, h1]
    rw [hres]
    exact ⟨iff_of_true rfl (Or.inl ((dictOverlap_iff _ _).mp h1)),
      fun _ => rfl⟩
  · by_cases h2 : dictOverlap npr.po_to_cost po2c = true
    · have hres : apply_non_portal_reimbursements npr t2c po2c =
          (Except.error
            "Non-reimbursed POs should not be duplicated in a portal",
            (t2c, po2c)) := by
        simp [apply_non_portal_reimbursements, h1, h2]
      rw [hres]
      exact ⟨iff_of_true rfl (Or.inr ((dictOverlap_iff _ _).mp h2)),
        fun _ => rfl⟩
    · have hres : apply_non_portal_reimbursements npr t2c po2c =
          (Except.ok (),
            (dictUpdate t2c npr.trackings_to_costs,
              dictUpdate po2c npr.po_to_cost)) := by
        simp [apply_non_portal_reimbursements, h1, h2]
      rw [hres]
      refine ⟨iff_of_false (by simp [isError]) ?_, ?_⟩
      · intro hover
        rcases hover with hk | hk
        · exact h1 ((dictOverlap_iff _ _).mpr hk)
        · exact h2 ((dictOverlap_iff _ _).mpr hk)
      · intro herr
        exact absurd herr (by simp [isError])

/-- Witness for claim C3 at a concrete input: a purchase order present in both
the non-portal data and the portal map triggers the error and leaves both maps
untouched. -/
theorem apply_non_portal_reimbursements_witness :
    (isError (apply_non_portal_reimbursements
        ⟨[], [("PO1", 3)]⟩ [(["t1"], ("g", 2))] [("PO1", 4)]).1 = true) ∧
    (apply_non_portal_reimbursements
        ⟨[], [("PO1", 3)]⟩ [(["t1"], ("g", 2))] [("PO1", 4)]).2 =
      ([(["t1"], ("g", 2))], [("PO1", 4)]) := by
  refine ⟨by decide, ?_⟩
  exact (apply_non_portal_reimbursements_spec
    ⟨[], [("PO1", 3)]⟩ [(["t1"], ("g", 2))] [("PO1", 4)]).2 (by decide)

/-! ## Object heap and tracking index

reconcile.py keeps several aliases (the all_clusters list and the
clusters_by_tracking dict) to the same mutable Cluster objects.  Object
identity is modelled by a heap indexed by ids; the index and the cluster list
store ids, so a mutation through one alias is seen through all. -/

/-- The heap of Cluster objects, addressed by object id. -/
def Heap : Type := Nat → Cluster

/-- In-place mutation of the object with id i. -/
def hset (h : Heap) (i : Nat) (c : Cluster) : Heap :=
  fun j => if j = i then c else h j

/-- clusters_by_tracking: a dict from tracking number to cluster object id. -/
def Index : Type := List (String × Nat)

/-- dict.values() of the tracking index: one id per key, in key order, with
repeats whenever several trackings map to the same cluster object. -/
def indexValues (idx : Index) : List Nat := idx.map Prod.snd

/-- map_clusters_by_tracking (reconcile.py lines 89-94): for every cluster,
for every tracking in it, result[tracking] = cluster.  Python set iteration
order is arbitrary; the ascending order on the trackings is fixed here. -/
def map_clusters_by_tracking (all_clusters : List Nat) (h : Heap) : Index :=
  all_clusters.foldl
    (fun idx i =>
      ((h i).trackings.sort (· ≤ ·)).foldl (fun idx t => dictSet idx t i) idx)
    []

/-- The mutable state read and written by merge_by_trackings_tuples: the
tracking index, the all_clusters list (as ids) and the object heap. -/
structure MState where
  index : Index
  all_clusters : List Nat
  heap : Heap

/-- Body of the loop in merge_by_trackings_tuples (reconcile.py lines
98-121) for one trackings tuple: length-1 tuples are skipped; the candidate
clusters are the index entries of the tuple members; all candidates after the
first are merged into the first (unless their content is already contained in
it), being removed from all_clusters when present there; finally every tuple
member is indexed to the first candidate. -/
def merge_into_first (first : Nat) (s : MState) (other : Nat) : MState :=
  let fc := s.heap first
  let oc := s.heap other
  if oc.trackings ⊆ fc.trackings ∧ oc.orders ⊆ fc.orders then s
  else
    { s with
      all_clusters := s.all_clusters.erase other
      heap := hset s.heap first (fc.merge_with oc) }

def merge_tuples_step (st : MState) (tup : List String) : MState :=
  if tup.length = 1 then st
  else
    match tup.filterMap (fun t => dictLookup st.index t) with
    | [] => st
    | first :: rest =>
        let st1 := rest.foldl (merge_into_first first) st
        { st1 with index := tup.foldl (fun ix t => dictSet ix t first) st1.index }

/-- merge_by_trackings_tuples (reconcile.py lines 97-121): process every
tuple of the tuple-cost dict in insertion order; the associated cost is bound
but unused by the source loop. -/
def merge_by_trackings_tuples (st : MState)
    (trackings_to_cost : List (List String × (String × ℤ))) : MState :=
  trackings_to_cost.foldl (fun s p => merge_tuples_step s p.1) st

/-- The command-line arguments consumed by fill_costs_new: the groups filter
(an empty list is Python-falsy, meaning no filtering) and the
print-unknowns flag (which only controls logging). -/
structure Args where
  groups : List String
  print_unknowns : Bool

/-- Python membership test cluster.group in args.groups, where the group may
be None. -/
def groupMem (g : Option String) (gs : List String) : Bool :=
  match g with
  | some s => gs.contains s
  | none => false

/-- The per-cluster reset at the top of fill_costs_new: tracked_cost := 0 and
non_reimbursed_trackings := a copy of the full trackings set. -/
def resetCluster (c : Cluster) : Cluster :=
  { c with non_reimbursed_trackings := c.trackings, tracked_cost := 0 }

/-- Body of the reset loop for the cluster with id i: skip it when its group
falls outside a non-empty groups filter, otherwise reset it in place. -/
def resetStep (args : Args) (h : Heap) (i : Nat) : Heap :=
  if !args.groups.isEmpty && !groupMem (h i).group args.groups then h
  else hset h i (resetCluster (h i))

/-- First loop of fill_costs_new (reconcile.py lines 126-131): reset every
cluster reachable from the index values, skipping clusters whose group is not
in a non-empty groups filter. -/
def resetPass (args : Args) (idx : Index) (h : Heap) : Heap :=
  (indexValues idx).foldl (resetStep args) h

/-- Second loop of fill_costs_new (reconcile.py lines 135-144), the
tuple-cost channel: attribute each tuple's cost to the cluster indexed by the
tuple's first tracking and drop every tuple member from that cluster's
non_reimbursed_trackings; tuples whose first tracking is not indexed are only
reported.  The source indexes trackings_tuple[0], which presumes non-empty
tuple keys; an empty tuple is a no-op here. -/
def tupleStep (idx : Index) (h : Heap)
    (p : List String × (String × ℤ)) : Heap :=
  match p.1 with
  | [] => h
  | first :: _ =>
      match dictLookup idx first with
      | some i =>
          let c := h i
          hset h i
            { c with
              tracked_cost := c.tracked_cost + p.2.2
              non_reimbursed_trackings :=
                c.non_reimbursed_trackings \ p.1.toFinset }
      | none => h

/-- The tuple-cost channel iterates the tuple-cost dict in insertion order. -/
def tupleCostPass (idx : Index)
    (trackings_to_cost : List (List String × (String × ℤ))) (h : Heap) :
    Heap :=
  trackings_to_cost.foldl (tupleStep idx) h

/-- Sum of portal-reported costs over a cluster's purchase orders, defaulting
to zero for purchase orders absent from the cost map. -/
def poSum (po_to_cost : List (String × ℤ)) (pos : Finset String) : ℤ :=
  pos.sum fun po => (dictLookup po_to_cost po).getD 0

/-- Third loop of fill_costs_new (reconcile.py lines 147-151), the
purchase-order-cost channel: iterate the index values — one visit per index
key, so a cluster is visited once per tracking that maps to it — and for each
visited cluster with non-empty purchase_orders add the cost of every purchase
order it holds. -/
def poStep (po_to_cost : List (String × ℤ)) (h : Heap) (i : Nat) : Heap :=
  let c := h i
  if c.purchase_orders = ∅ then h
  else
    hset h i
      { c with
        tracked_cost := c.tracked_cost + poSum po_to_cost c.purchase_orders }

/-- The purchase-order channel iterates the index values: one visit per index
key. -/
def poCostPass (idx : Index) (po_to_cost : List (String × ℤ)) (h : Heap) :
    Heap :=
  (indexValues idx).foldl (poStep po_to_cost) h

/-- fill_costs_new (reconcile.py lines 124-151): reset, then the tuple-cost
channel, then the purchase-order-cost channel. -/
def fill_costs_new (idx : Index)
    (trackings_to_cost : List (List String × (String × ℤ)))
    (po_to_cost : List (String × ℤ)) (args : Args) (h : Heap) : Heap :=
  poCostPass idx po_to_cost
    (tupleCostPass idx trackings_to_cost (resetPass args idx h))

/-- A heap with a single interesting cluster that owns two trackings and one
purchase order. -/
def c2Heap : Heap := fun i =>
  if i = 0 then
    { orders := ∅, trackings := {"ta", "tb"}, group := some "g",
      expected_cost := 0, tracked_cost := 0, last_ship_date := "0",
      purchase_orders := {"PO1"} }
  else default

/-- Claim C2 (code evaluated at the failing input): the cluster with the two
trackings ta and tb appears twice among the values of the index
{ta: cluster 0, tb: cluster 0} that map_clusters_by_tracking builds for it, so
the purchase-order channel adds its single purchase order's cost of 10 twice,
yielding tracked_cost 20 instead of the claimed 10. -/
theorem fill_costs_new_po_channel_double_counts :
    (fill_costs_new [("ta", 0), ("tb", 0)] [] [("PO1", 10)]
        ⟨[], false⟩ c2Heap 0).tracked_cost = 20 := by decide

/-- Three singleton clusters for the tracking-index merge scenario. -/
def c8Heap : Heap := fun i =>
  if i = 0 then
    { orders := ∅, trackings := {"a"}, group := some "g", expected_cost := 0,
      tracked_cost := 0, last_ship_date := "0", purchase_orders := ∅ }
  else if i = 1 then
    { orders := ∅, trackings := {"b"}, group := some "g", expected_cost := 0,
      tracked_cost := 0, last_ship_date := "0", purchase_orders := ∅ }
  else if i = 2 then
    { orders := ∅, trackings := {"c"}, group := some "g", expected_cost := 0,
      tracked_cost := 0, last_ship_date := "0", purchase_orders := ∅ }
  else default

/-- The starting state for the scenario: index {a: X, b: Y, c: Z}. -/
def c8Start : MState :=
  { index := [("a", 0), ("b", 1), ("c", 2)], all_clusters := [0, 1, 2],
    heap := c8Heap }

/-- The tuple-cost map {(a,b): 10.0, (b,c): 5.0}, in that order. -/
def c8T2c : List (List String × (String × ℤ)) :=
  [(["a", "b"], ("g", 10)), (["b", "c"], ("g", 5))]

/-- Claim C8: after merge_by_trackings_tuples with tuples (a,b) and (b,c) and
the tuple-cost channel of fill_costs_new, the trackings a, b and c all index
the same single cluster and that cluster's tracked cost is 10 + 5 = 15. -/
theorem merge_transitivity_scenario :
    (dictLookup (merge_by_trackings_tuples c8Start c8T2c).index "a" = some 0 ∧
     dictLookup (merge_by_trackings_tuples c8Start c8T2c).index "b" = some 0 ∧
     dictLookup (merge_by_trackings_tuples c8Start c8T2c).index "c" = some 0) ∧
    (fill_costs_new (merge_by_trackings_tuples c8Start c8T2c).index c8T2c []
        ⟨[], false⟩ (merge_by_trackings_tuples c8Start c8T2c).heap
        0).tracked_cost = 15 := by decide

/-! ## Idempotence of fill_costs_new -/

/-- A heap holding one cluster whose group lies outside the groups filter used
in the counterexample below. -/
def c5Heap : Heap := fun i =>
  if i = 0 then
    { orders := ∅, trackings := {"t"}, group := some "g2", expected_cost := 0,
      tracked_cost := 0, last_ship_date := "0", purchase_orders := ∅ }
  else default

/-- The tuple-cost map attributing cost 5 to the tracking t. -/
def c5T2c : List (List String × (String × ℤ)) := [(["t"], ("g2", 5))]

/-- Claim C5 counterexample: with the groups filter ["g1"], the cluster of
group g2 is skipped by the reset loop but still receives the tuple cost in the
cost channel, so one run yields tracked_cost 5 and two runs yield 10 —
fill_costs_new is not idempotent for every argument set. -/
theorem fill_costs_new_not_idempotent_with_filter :
    (fill_costs_new [("t", 0)] c5T2c [] ⟨["g1"], false⟩ c5Heap 0).tracked_cost
        = 5 ∧
    (fill_costs_new [("t", 0)] c5T2c [] ⟨["g1"], false⟩
        (fill_costs_new [("t", 0)] c5T2c [] ⟨["g1"], false⟩ c5Heap)
        0).tracked_cost = 10 := by decide

/-- The fields of a cluster that fill_costs_new never writes: everything
except tracked_cost and non_reimbursed_trackings. -/
def Cluster.core (c : Cluster) :
    Finset String × Finset String × Option String × ℤ × String ×
      Finset String :=
  (c.orders, c.trackings, c.group, c.expected_cost, c.last_ship_date,
    c.purchase_orders)

lemma resetCluster_idem (c : Cluster) :
    resetCluster (resetCluster c) = resetCluster c := rfl

lemma resetCluster_congr {c₁ c₂ : Cluster} (h : c₁.core = c₂.core) :
    resetCluster c₁ = resetCluster c₂ := by
  cases c₁; cases c₂
  simp only [Cluster.core, Prod.mk.injEq] at h
  obtain ⟨h1, h2, h3, h4, h5, h6⟩ := h
  simp [resetCluster, h1, h2, h3, h4, h5, h6]

lemma hset_apply (h : Heap) (i : Nat) (c : Cluster) (j : Nat) :
    hset h i c j = if j = i then c else h j := rfl

lemma hset_ne (h : Heap) (j : Nat) (c : Cluster) (i : Nat) (hij : i ≠ j) :
    hset h j c i = h i := by
  rw [hset_apply, if_neg hij]

lemma hset_core (h : Heap) (j : Nat) (c : Cluster)
    (hc : c.core = (h j).core) (i : Nat) :
    (hset h j c i).core = (h i).core := by
  rw [hset_apply]
  by_cases hij : i = j
  · subst hij; rw [if_pos rfl, hc]
  · rw [if_neg hij]

/-- With an empty (Python-falsy) groups filter the reset step never skips. -/
lemma resetStep_apply_empty (pu : Bool) (h : Heap) (j : Nat) :
    resetStep ⟨[], pu⟩ h j = hset h j (resetCluster (h j)) := by
  simp [resetStep]

/-- With an empty groups filter the reset loop rewrites exactly the clusters
reachable from the index values, each to its reset form. -/
lemma resetPass_apply (pu : Bool) (idx : Index) (h : Heap) (i : Nat) :
    resetPass ⟨[], pu⟩ idx h i =
      if i ∈ indexValues idx then resetCluster (h i) else h i := by
  unfold resetPass
  generalize indexValues idx = vs
  induction vs generalizing h with
  | nil => simp
  | cons j vs ih =>
      simp only [List.foldl_cons, List.mem_cons]
      rw [resetStep_apply_empty, ih]
      by_cases hij : i = j
      · subst hij
        by_cases hi : i ∈ vs
        · simp [hi, hset_apply, resetCluster_idem]
        · simp [hi, hset_apply]
      · by_cases hi : i ∈ vs
        · simp [hi, hij, hset_apply]
        · simp [hi, hij, hset_apply]

/-- Generic fold lemma: a loop whose every step leaves the core of every
heap cell unchanged leaves the core of every heap cell unchanged. -/
lemma foldl_core_preserving {β : Type} (step : Heap → β → Heap)
    (hstep : ∀ h b i, (step h b i).core = (h i).core) :
    ∀ (l : List β) (h : Heap) (i : Nat),
      ((l.foldl step h) i).core = (h i).core := by
  intro l
  induction l with
  | nil => intro h i; rfl
  | cons b l ih =>
      intro h i
      simp only [List.foldl_cons]
      rw [ih, hstep]

lemma resetStep_core (args : Args) (h : Heap) (j i : Nat) :
    (resetStep args h j i).core = (h i).core := by
  rw [resetStep]
  split
  · rfl
  · apply hset_core
    rfl

lemma tupleStep_core (idx : Index) (h : Heap)
    (p : List String × (String × ℤ)) (i : Nat) :
    (tupleStep idx h p i).core = (h i).core := by
  rcases p with ⟨tup, v⟩
  cases tup with
  | nil => rfl
  | cons first rest =>
      simp only [tupleStep]
      cases hl : dictLookup idx first with
      | none => rfl
      | some j =>
          apply hset_core
          rfl

lemma poStep_core (po2c : List (String × ℤ)) (h : Heap) (j i : Nat) :
    (poStep po2c h j i).core = (h i).core := by
  simp only [poStep]
  split
  · rfl
  · apply hset_core
    rfl

lemma resetPass_core (args : Args) (idx : Index) (h : Heap) (i : Nat) :
    (resetPass args idx h i).core = (h i).core :=
  foldl_core_preserving (resetStep args) (resetStep_core args)
    (indexValues idx) h i

lemma tupleCostPass_core (idx : Index)
    (t2c : List (List String × (String × ℤ))) (h : Heap) (i : Nat) :
    (tupleCostPass idx t2c h i).core = (h i).core :=
  foldl_core_preserving (tupleStep idx) (tupleStep_core idx) t2c h i

lemma poCostPass_core (idx : Index) (po2c : List (String × ℤ)) (h : Heap)
    (i : Nat) : (poCostPass idx po2c h i).core = (h i).core :=
  foldl_core_preserving (poStep po2c) (poStep_core po2c)
    (indexValues idx) h i

/-- fill_costs_new only ever writes tracked_cost and
non_reimbursed_trackings. -/
lemma fill_costs_new_core (idx : Index)
    (t2c : List (List String × (String × ℤ))) (po2c : List (String × ℤ))
    (args : Args) (h : Heap) (i : Nat) :
    (fill_costs_new idx t2c po2c args h i).core = (h i).core := by
  unfold fill_costs_new
  rw [poCostPass_core, tupleCostPass_core, resetPass_core]

/-- Generic fold lemma: a loop whose every step leaves a cell outside S
unchanged leaves every cell outside S unchanged. -/
lemma foldl_untouched {β : Type} (step : Heap → β → Heap) (S : Nat → Prop) :
    ∀ (l : List β), (∀ h b i, b ∈ l → ¬ S i → step h b i = h i) →
      ∀ (h : Heap) (i : Nat), ¬ S i → (l.foldl step h) i = h i := by
  intro l
  induction l with
  | nil => intro _ h i _; rfl
  | cons b l ih =>
      intro hstep h i hi
      simp only [List.foldl_cons]
      rw [ih (fun h b i hb => hstep h b i (List.mem_cons_of_mem _ hb)) _ _ hi,
        hstep h b i (List.mem_cons_self _ _) hi]

lemma dictLookup_mem_values {idx : Index} {t : String} {i : Nat}
    (h : dictLookup idx t = some i) : i ∈ indexValues idx := by
  induction idx with
  | nil => cases h
  | cons p idx ih =>
      rw [dictLookup] at h
      by_cases hp : p.1 = t
      · rw [if_pos hp] at h
        cases h
        exact List.mem_cons_self _ _
      · rw [if_neg hp] at h
        exact List.mem_cons_of_mem _ (ih h)

lemma resetStep_untouched (args : Args) (h : Heap) (j i : Nat)
    (hij : i ≠ j) : resetStep args h j i = h i := by
  rw [resetStep]
  split
  · rfl
  · exact hset_ne h j _ i hij

lemma tupleStep_untouched (idx : Index) (h : Heap)
    (p : List String × (String × ℤ)) (i : Nat)
    (hi : i ∉ indexValues idx) : tupleStep idx h p i = h i := by
  rcases p with ⟨tup, v⟩
  cases tup with
  | nil => rfl
  | cons first rest =>
      simp only [tupleStep]
      cases hl : dictLookup idx first with
      | none => rfl
      | some j =>
          exact hset_ne h j _ i
            (fun he => hi (by rw [he]; exact dictLookup_mem_values hl))

lemma poStep_untouched (po2c : List (String × ℤ)) (h : Heap) (j i : Nat)
    (hij : i ≠ j) : poStep po2c h j i = h i := by
  simp only [poStep]
  split
  · rfl
  · exact hset_ne h j _ i hij

lemma resetPass_not_mem (args : Args) (idx : Index) (h : Heap) (i : Nat)
    (hi : i ∉ indexValues idx) : resetPass args idx h i = h i := by
  apply foldl_untouched _ (fun i => i ∈ indexValues idx) _ ?_ h i hi
  intro h j i hj hi
  exact resetStep_untouched args h j i (fun he => hi (by rw [he]; exact hj))

lemma tupleCostPass_not_mem (idx : Index)
    (t2c : List (List String × (String × ℤ))) (h : Heap) (i : Nat)
    (hi : i ∉ indexValues idx) : tupleCostPass idx t2c h i = h i := by
  apply foldl_untouched _ (fun i => i ∈ indexValues idx) _ ?_ h i hi
  intro h p i _ hi
  exact tupleStep_untouched idx h p i hi

lemma poCostPass_not_mem (idx : Index) (po2c : List (String × ℤ)) (h : Heap)
    (i : Nat) (hi : i ∉ indexValues idx) : poCostPass idx po2c h i = h i := by
  apply foldl_untouched _ (fun i => i ∈ indexValues idx) _ ?_ h i hi
  intro h j i hj hi
  exact poStep_untouched po2c h j i (fun he => hi (by rw [he]; exact hj))

/-- With an empty groups filter the reset loop depends only on what
fill_costs_new never writes, so two heaps that agree there reset equally. -/
lemma resetPass_eq_of (pu : Bool) (idx : Index) (h₁ h₂ : Heap)
    (hcore : ∀ i, (h₁ i).core = (h₂ i).core)
    (hout : ∀ i, i ∉ indexValues idx → h₁ i = h₂ i) :
    resetPass ⟨[], pu⟩ idx h₁ = resetPass ⟨[], pu⟩ idx h₂ := by
  funext i
  rw [resetPass_apply, resetPass_apply]
  by_cases hi : i ∈ indexValues idx
  · rw [if_pos hi, if_pos hi, resetCluster_congr (hcore i)]
  · rw [if_neg hi, if_neg hi, hout i hi]

/-- Claim C5 (amended): when the groups filter is empty — so the reset loop
really does reset every cluster in scope before either cost channel runs —
fill_costs_new is idempotent: a second run with identical inputs reproduces
the heap of the first run exactly.  With a non-empty filter the reset skips
out-of-filter clusters while the channels still feed them, and idempotence
fails. -/
theorem fill_costs_new_idempotent_no_filter (idx : Index)
    (t2c : List (List String × (String × ℤ))) (po2c : List (String × ℤ))
    (pu : Bool) (h : Heap) :
    fill_costs_new idx t2c po2c ⟨[], pu⟩
        (fill_costs_new idx t2c po2c ⟨[], pu⟩ h) =
      fill_costs_new idx t2c po2c ⟨[], pu⟩ h := by
  have hreset : resetPass ⟨[], pu⟩ idx
      (fill_costs_new idx t2c po2c ⟨[], pu⟩ h) = resetPass ⟨[], pu⟩ idx h := by
    apply resetPass_eq_of
    · intro i
      exact fill_costs_new_core idx t2c po2c ⟨[], pu⟩ h i
    · intro i hi
      unfold fill_costs_new
      rw [poCostPass_not_mem _ _ _ _ hi, tupleCostPass_not_mem _ _ _ _ hi,
        resetPass_not_mem _ _ _ _ hi]
  conv_lhs => rw [fill_costs_new]
  rw [hreset]
  rfl

/-! ## update_clusters and same-group order disjointness -/

/-- A Tracking record as consumed by update_clusters (clusters.py lines
105-123): only the fields that pass reads. -/
structure Tracking where
  tracking_number : String
  group : Option String
  order_ids : Finset String
  ship_date : String
deriving DecidableEq

/-- The match condition of find_cluster: same group and intersecting
orders. -/
def tracking_matches (c : Cluster) (t : Tracking) : Prop :=
  c.group = t.group ∧ c.orders ∩ t.order_ids ≠ ∅

instance (c : Cluster) (t : Tracking) : Decidable (tracking_matches c t) := by
  unfold tracking_matches; infer_instance

/-- find_cluster (clusters.py lines 105-110): the first cluster in the same
group whose orders intersect the tracking record's order ids. -/
def find_cluster (all_clusters : List Cluster) (t : Tracking) : Option Nat :=
  find_first_idx (fun c => decide (tracking_matches c t)) all_clusters

/-- Cluster.__init__ (clusters.py lines 26-27): a fresh cluster for the given
group, with empty sets, zero costs and ship date "0". -/
def Cluster.new (group : Option String) : Cluster :=
  { orders := ∅, trackings := ∅, group := group, expected_cost := 0,
    tracked_cost := 0, last_ship_date := "0", purchase_orders := ∅ }

/-- The three mutations update_clusters performs on the chosen cluster:
orders.update(order_ids), trackings.add(tracking_number), and the ship-date
max. -/
def absorb_tracking (c : Cluster) (t : Tracking) : Cluster :=
  { c with
    orders := c.orders ∪ t.order_ids
    trackings := insert t.tracking_number c.trackings
    last_ship_date := max c.last_ship_date t.ship_date }

/-- One iteration of update_clusters for a single tracking: mutate the found
cluster in place, or append a freshly created cluster for the tracking's
group. -/
def update_step (cs : List Cluster) (t : Tracking) : List Cluster :=
  match find_cluster cs t with
  | some i => cs.set i (absorb_tracking (cs.getD i default) t)
  | none => cs ++ [absorb_tracking (Cluster.new t.group) t]

/-- update_clusters (clusters.py lines 113-123): for every group of the
trackings dict, for every tracking in it, run one update step. -/
def update_clusters (cs : List Cluster)
    (trackings_dict : List (String × List Tracking)) : List Cluster :=
  trackings_dict.foldl (fun cs p => p.2.foldl update_step cs) cs

/-- Orders sets of clusters in the same buying group are pairwise
disjoint. -/
def sameGroupDisjoint (cs : List Cluster) : Prop :=
  ∀ i j : Fin cs.length, (i : Nat) < j →
    (cs.get i).group = (cs.get j).group →
    (cs.get i).orders ∩ (cs.get j).orders = ∅

instance (cs : List Cluster) : Decidable (sameGroupDisjoint cs) := by
  unfold sameGroupDisjoint; infer_instance

/-- First of the two disjoint same-group clusters bridged below. -/
def c7A : Cluster :=
  { orders := {"o1"}, trackings := {"t1"}, group := some "g",
    expected_cost := 0, tracked_cost := 0, last_ship_date := "0",
    purchase_orders := ∅ }

/-- Second of the two disjoint same-group clusters bridged below. -/
def c7B : Cluster :=
  { orders := {"o2"}, trackings := {"t2"}, group := some "g",
    expected_cost := 0, tracked_cost := 0, last_ship_date := "0",
    purchase_orders := ∅ }

/-- A tracking whose order ids intersect both clusters above. -/
def c7T : Tracking :=
  { tracking_number := "t3", group := some "g", order_ids := {"o1", "o2"},
    ship_date := "0" }

/-- Claim C7 counterexample: starting from two same-group clusters with
disjoint orders {o1} and {o2}, a single tracking carrying order ids {o1, o2}
is absorbed by the first matching cluster only, leaving orders {o1, o2} and
{o2} — the same-group orders sets of the output are no longer pairwise
disjoint. -/
theorem update_clusters_breaks_disjointness :
    sameGroupDisjoint [c7A, c7B] ∧
      ¬ sameGroupDisjoint (update_clusters [c7A, c7B] [("g", [c7T])]) := by
  decide

/-- At the moment a tracking is processed, at most one current cluster
matches it (same group, intersecting orders). -/
def matchesAtMostOne (cs : List Cluster) (t : Tracking) : Prop :=
  ∀ i j : Fin cs.length, tracking_matches (cs.get i) t →
    tracking_matches (cs.get j) t → (i : Nat) = j

instance (cs : List Cluster) (t : Tracking) :
    Decidable (matchesAtMostOne cs t) := by
  unfold matchesAtMostOne; infer_instance

/-- The per-trace side condition of the amended claim C7: every tracking, at
the state in which update_clusters processes it, matches at most one
cluster. -/
def update_ok (cs : List Cluster) : List Tracking → Prop
  | [] => True
  | t :: ts => matchesAtMostOne cs t ∧ update_ok (update_step cs t) ts

def update_ok_dec (cs : List Cluster) :
    (ts : List Tracking) → Decidable (update_ok cs ts)
  | [] => isTrue trivial
  | t :: ts =>
      haveI : Decidable (update_ok (update_step cs t) ts) :=
        update_ok_dec (update_step cs t) ts
      inferInstanceAs
        (Decidable (matchesAtMostOne cs t ∧ update_ok (update_step cs t) ts))

instance (cs : List Cluster) (ts : List Tracking) :
    Decidable (update_ok cs ts) := update_ok_dec cs ts

lemma find_first_idx_none {p : Cluster → Bool} :
    ∀ {cs : List Cluster}, find_first_idx p cs = none →
      ∀ c ∈ cs, p c = false := by
  intro cs
  induction cs with
  | nil => intro _ c hc; cases hc
  | cons c cs ih =>
      intro h d hd
      rw [find_first_idx] at h
      by_cases hp : p c = true
      · rw [if_pos hp] at h; cases h
      · rw [if_neg hp] at h
        rcases List.mem_cons.mp hd with hd | hd
        · subst hd
          cases hpd : p d
          · rfl
          · exact absurd hpd hp
        · rcases hfind : find_first_idx p cs with _ | k
          · exact ih hfind d hd
          · rw [hfind] at h; simp at h

lemma find_first_idx_some {p : Cluster → Bool} :
    ∀ {cs : List Cluster} {i : Nat}, find_first_idx p cs = some i →
      ∃ hi : i < cs.length, p (cs.get ⟨i, hi⟩) = true := by
  intro cs
  induction cs with
  | nil => intro i h; cases h
  | cons c cs ih =>
      intro i h
      rw [find_first_idx] at h
      by_cases hp : p c = true
      · rw [if_pos hp] at h
        cases h
        exact ⟨Nat.succ_pos _, hp⟩
      · rw [if_neg hp] at h
        rcases hfind : find_first_idx p cs with _ | k
        · rw [hfind] at h; simp at h
        · rw [hfind] at h
          have h2 : k + 1 = i := by simpa using h
          subst h2
          obtain ⟨hk, hpk⟩ := ih hfind
          exact ⟨Nat.succ_lt_succ hk, hpk⟩

/-- One update step preserves same-group order disjointness provided the
processed tracking matches at most one current cluster. -/
lemma update_step_preserves (cs : List Cluster) (t : Tracking)
    (hd : sameGroupDisjoint cs) (h1 : matchesAtMostOne cs t) :
    sameGroupDisjoint (update_step cs t) := by
  cases hf : find_cluster cs t with
  | none =>
      have hstep : update_step cs t
          = cs ++ [absorb_tracking (Cluster.new t.group) t] := by
        rw [update_step, hf]
      rw [hstep]
      have hf2 : find_first_idx (fun c => decide (tracking_matches c t)) cs
          = none := hf
      have hnone : ∀ c ∈ cs, ¬ tracking_matches c t := by
        intro c hc hm
        have := find_first_idx_none hf2 c hc
        simp [hm] at this
      intro i j hij hg
      have hlen : (cs ++ [absorb_tracking (Cluster.new t.group) t]).length
          = cs.length + 1 := by simp
      have hjlt1 : (j : Nat) < cs.length + 1 := by
        have := j.isLt; omega
      simp only [List.get_eq_getElem] at hg ⊢
      by_cases hjlt : (j : Nat) < cs.length
      · have hilt : (i : Nat) < cs.length := lt_trans hij hjlt
        have hgi : (cs ++ [absorb_tracking (Cluster.new t.group) t])[(i : Nat)]
            = cs[(i : Nat)] := List.getElem_append_left hilt
        have hgj : (cs ++ [absorb_tracking (Cluster.new t.group) t])[(j : Nat)]
            = cs[(j : Nat)] := List.getElem_append_left hjlt
        rw [hgi, hgj] at hg ⊢
        exact hd ⟨i, hilt⟩ ⟨j, hjlt⟩ hij hg
      · have hjeq : (j : Nat) = cs.length := by omega
        have hilt : (i : Nat) < cs.length := by omega
        have hje : cs.length ≤ (j : Nat) := by omega
        have hgi : (cs ++ [absorb_tracking (Cluster.new t.group) t])[(i : Nat)]
            = cs[(i : Nat)] := List.getElem_append_left hilt
        have hgj : (cs ++ [absorb_tracking (Cluster.new t.group) t])[(j : Nat)]
            = absorb_tracking (Cluster.new t.group) t := by
          rw [List.getElem_append_right hje]
          simp [hjeq]
        rw [hgi, hgj] at hg ⊢
        have hnc : cs[(i : Nat)].group = t.group := by
          simpa [absorb_tracking, Cluster.new] using hg
        have hno := hnone cs[(i : Nat)] (List.getElem_mem hilt)
        have hinter : cs[(i : Nat)].orders ∩ t.order_ids = ∅ := by
          by_contra hne
          exact hno ⟨hnc, hne⟩
        simp [absorb_tracking, Cluster.new, hinter]
  | some k =>
      have hstep : update_step cs t
          = cs.set k (absorb_tracking (cs.getD k default) t) := by
        rw [update_step, hf]
      rw [hstep]
      have hf2 : find_first_idx (fun c => decide (tracking_matches c t)) cs
          = some k := hf
      obtain ⟨hk, hpk⟩ := find_first_idx_some hf2
      have hmk : tracking_matches (cs.get ⟨k, hk⟩) t := by simpa using hpk
      have hgetD : cs.getD k default = cs.get ⟨k, hk⟩ := by
        simp [List.getD_eq_getElem?_getD, List.getElem?_eq_getElem hk]
      rw [hgetD]
      intro i j hij hg
      have hlen : (cs.set k (absorb_tracking (cs.get ⟨k, hk⟩) t)).length
          = cs.length := by simp
      have hilt : (i : Nat) < cs.length := by
        have := i.isLt; omega
      have hjlt : (j : Nat) < cs.length := by
        have := j.isLt; omega
      simp only [List.get_eq_getElem, List.getElem_set] at hg ⊢
      by_cases hik : k = (i : Nat)
      · have hjk : ¬ k = (j : Nat) := by omega
        rw [if_pos hik, if_neg hjk] at hg ⊢
        have hgk : cs[k].group = cs[(j : Nat)].group := by
          simpa [absorb_tracking] using hg
        have hdisj : cs[k].orders ∩ cs[(j : Nat)].orders = ∅ :=
          hd ⟨k, hk⟩ ⟨j, hjlt⟩ (by show k < (j : Nat); omega) hgk
        have hjdisj : t.order_ids ∩ cs[(j : Nat)].orders = ∅ := by
          by_contra hne
          have hmj : tracking_matches (cs.get ⟨j, hjlt⟩) t := by
            constructor
            · exact hgk.symm.trans hmk.1
            · intro hemp
              apply hne
              rw [Finset.inter_comm]
              exact hemp
          have heq : (j : Nat) = k := h1 ⟨j, hjlt⟩ ⟨k, hk⟩ hmj hmk
          omega
        show (absorb_tracking cs[k] t).orders ∩ cs[(j : Nat)].orders = ∅
        simp only [absorb_tracking]
        rw [Finset.union_inter_distrib_right, hdisj, hjdisj]
        simp
      · by_cases hjk : k = (j : Nat)
        · rw [if_neg hik, if_pos hjk] at hg ⊢
          have hgk : cs[(i : Nat)].group = cs[k].group := by
            simpa [absorb_tracking] using hg
          have hdisj : cs[(i : Nat)].orders ∩ cs[k].orders = ∅ :=
            hd ⟨i, hilt⟩ ⟨k, hk⟩ (by show (i : Nat) < k; omega) hgk
          have hidisj : cs[(i : Nat)].orders ∩ t.order_ids = ∅ := by
            by_contra hne
            have hmi : tracking_matches (cs.get ⟨i, hilt⟩) t :=
              ⟨hgk.trans hmk.1, hne⟩
            have heq : (i : Nat) = k := h1 ⟨i, hilt⟩ ⟨k, hk⟩ hmi hmk
            omega
          show cs[(i : Nat)].orders ∩ (absorb_tracking cs[k] t).orders = ∅
          simp only [absorb_tracking]
          rw [Finset.inter_union_distrib_left, hdisj, hidisj]
          simp
        · rw [if_neg hik, if_neg hjk] at hg ⊢
          exact hd ⟨i, hilt⟩ ⟨j, hjlt⟩ hij hg

/-- Folding update steps over a tracking list preserves disjointness under
the per-trace side condition. -/
lemma update_steps_preserve (ts : List Tracking) :
    ∀ cs : List Cluster, sameGroupDisjoint cs → update_ok cs ts →
      sameGroupDisjoint (ts.foldl update_step cs) := by
  induction ts with
  | nil => intro cs hd _; exact hd
  | cons t ts ih =>
      intro cs hd hok
      exact ih (update_step cs t)
        (update_step_preserves cs t hd hok.1) hok.2

/-- Processing the trackings dict group by group equals processing the
flattened tracking list. -/
lemma update_clusters_flat (d : List (String × List Tracking)) :
    ∀ cs : List Cluster,
      update_clusters cs d = (d.flatMap Prod.snd).foldl update_step cs := by
  induction d with
  | nil => intro cs; rfl
  | cons p d ih =>
      intro cs
      show update_clusters (p.2.foldl update_step cs) d = _
      rw [ih, List.flatMap_cons, List.foldl_append]

/-- Claim C7 (amended): update_clusters preserves pairwise disjointness of
same-group orders sets — including from the empty starting collection —
provided every tracking, at the moment it is processed, matches at most one
current cluster; a tracking whose order ids intersect two disjoint same-group
clusters is absorbed by the first match only and breaks disjointness. -/
theorem update_clusters_preserves_disjointness (cs : List Cluster)
    (d : List (String × List Tracking)) (hd : sameGroupDisjoint cs)
    (hok : update_ok cs (d.flatMap Prod.snd)) :
    sameGroupDisjoint (update_clusters cs d) := by
  rw [update_clusters_flat]
  exact update_steps_preserve _ cs hd hok

/-- A second tracking, matching no existing cluster in the witness run. -/
def c7T2 : Tracking :=
  { tracking_number := "t4", group := some "g", order_ids := {"o9"},
    ship_date := "0" }

/-- Witness for the amended claim C7 at a concrete input: two trackings with
non-bridging order sets, starting from the empty collection. -/
theorem update_clusters_preserves_disjointness_witness :
    sameGroupDisjoint (update_clusters [] [("g", [c7T, c7T2])]) :=
  update_clusters_preserves_disjointness [] [("g", [c7T, c7T2])]
    (by decide) (by decide)

/-! ## Key growth of the tracking index under tuple merging -/

lemma dictLookup_dictSet_self {α β : Type} [DecidableEq α]
    (m : List (α × β)) (k : α) (v : β) :
    dictLookup (dictSet m k v) k = some v := by
  induction m with
  | nil => simp [dictSet, dictLookup]
  | cons p m ih =>
      rw [dictSet]
      by_cases hp : p.1 = k
      · rw [if_pos hp, dictLookup, if_pos rfl]
      · rw [if_neg hp, dictLookup, if_neg hp]
        exact ih

lemma dictLookup_dictSet_ne {α β : Type} [DecidableEq α]
    (m : List (α × β)) (k : α) (v : β) (x : α) (hx : x ≠ k) :
    dictLookup (dictSet m k v) x = dictLookup m x := by
  have hkx : ¬ (k = x) := fun h => hx h.symm
  induction m with
  | nil => simp [dictSet, dictLookup, hkx]
  | cons p m ih =>
      rw [dictSet]
      by_cases hp : p.1 = k
      · have hpx : ¬ (p.1 = x) := by rw [hp]; exact hkx
        rw [if_pos hp]
        simp [dictLookup, hkx, hpx]
      · rw [if_neg hp, dictLookup, dictLookup]
        by_cases hpx : p.1 = x
        · rw [if_pos hpx, if_pos hpx]
        · rw [if_neg hpx, if_neg hpx]
          exact ih

/-- Re-indexing every tuple member preserves already-present keys. -/
lemma lookup_reindex_preserved (first : Nat) (tup : List String) :
    ∀ (idx : Index) (x : String), (dictLookup idx x).isSome = true →
      (dictLookup (tup.foldl (fun ix t => dictSet ix t first) idx) x).isSome
        = true := by
  induction tup with
  | nil => intro idx x h; exact h
  | cons t tup ih =>
      intro idx x h
      simp only [List.foldl_cons]
      apply ih
      by_cases hxt : x = t
      · subst hxt
        rw [dictLookup_dictSet_self]
        rfl
      · rw [dictLookup_dictSet_ne _ _ _ _ hxt]
        exact h

/-- Re-indexing every tuple member makes every tuple member a key. -/
lemma lookup_reindex_mem (first : Nat) (tup : List String) :
    ∀ (idx : Index) (x : String), x ∈ tup →
      (dictLookup (tup.foldl (fun ix t => dictSet ix t first) idx) x).isSome
        = true := by
  induction tup with
  | nil => intro idx x h; cases h
  | cons t tup ih =>
      intro idx x hx
      simp only [List.foldl_cons]
      rcases List.mem_cons.mp hx with hx | hx
      · subst hx
        apply lookup_reindex_preserved
        rw [dictLookup_dictSet_self]
        rfl
      · exact ih _ x hx

lemma merge_into_first_index (first : Nat) (s : MState) (other : Nat) :
    (merge_into_first first s other).index = s.index := by
  rw [merge_into_first]
  split
  · rfl
  · rfl

lemma merge_fold_index (first : Nat) (rest : List Nat) :
    ∀ s : MState, (rest.foldl (merge_into_first first) s).index = s.index := by
  induction rest with
  | nil => intro s; rfl
  | cons o rest ih =>
      intro s
      simp only [List.foldl_cons]
      rw [ih, merge_into_first_index]

/-- One tuple step never removes a key from the tracking index. -/
lemma merge_tuples_step_keys_mono (st : MState) (tup : List String)
    (x : String) (h : (dictLookup st.index x).isSome = true) :
    (dictLookup (merge_tuples_step st tup).index x).isSome = true := by
  rw [merge_tuples_step]
  by_cases h1 : tup.length = 1
  · rw [if_pos h1]; exact h
  · rw [if_neg h1]
    cases hc : tup.filterMap (fun t => dictLookup st.index t) with
    | nil => exact h
    | cons first rest =>
        simp only
        apply lookup_reindex_preserved
        rw [merge_fold_index]
        exact h

/-- The whole tuple pass never removes a key from the tracking index. -/
lemma merge_by_trackings_tuples_keys_mono
    (t2c : List (List String × (String × ℤ))) :
    ∀ (st : MState) (x : String), (dictLookup st.index x).isSome = true →
      (dictLookup (merge_by_trackings_tuples st t2c).index x).isSome = true := by
  induction t2c with
  | nil => intro st x h; exact h
  | cons p t2c ih =>
      intro st x h
      exact ih _ x (merge_tuples_step_keys_mono st p.1 x h)

/-- After a qualifying tuple is processed, every one of its trackings is a
key of the index. -/
lemma merge_tuples_step_keys_mem (st : MState) (tup : List String)
    (hlen : 2 ≤ tup.length)
    (hpresent : ∃ t ∈ tup, (dictLookup st.index t).isSome = true) :
    ∀ x ∈ tup, (dictLookup (merge_tuples_step st tup).index x).isSome
      = true := by
  intro x hx
  rw [merge_tuples_step]
  rw [if_neg (by omega)]
  cases hc : tup.filterMap (fun t => dictLookup st.index t) with
  | nil =>
      exfalso
      obtain ⟨t, ht, hsome⟩ := hpresent
      have := List.filterMap_eq_nil_iff.mp hc t ht
      rw [this] at hsome
      cases hsome
  | cons first rest =>
      simp only
      apply lookup_reindex_mem
      exact hx

/-- Claim C10 (amended): merge_by_trackings_tuples never removes a key from
clusters_by_tracking — every key present before the pass is still a key
afterwards — and for every tuple of length at least 2 with at least one
member indexed at the moment it is processed, every tracking of that tuple —
including trackings absent from the index beforehand — is a key of the final
index.  The final mapping of such a key need not be this tuple's first
candidate: the counterexample below shows a later overlapping tuple remapping
it. -/
theorem merge_by_trackings_tuples_inserts_tuple_keys (st : MState)
    (pre post : List (List String × (String × ℤ))) (tup : List String)
    (v : String × ℤ) (hlen : 2 ≤ tup.length)
    (hpresent : ∃ t ∈ tup,
      (dictLookup (merge_by_trackings_tuples st pre).index t).isSome = true) :
    (∀ x : String, (dictLookup st.index x).isSome = true →
      (dictLookup
        (merge_by_trackings_tuples st (pre ++ (tup, v) :: post)).index
        x).isSome = true) ∧
    ∀ t ∈ tup,
      (dictLookup
        (merge_by_trackings_tuples st (pre ++ (tup, v) :: post)).index
        t).isSome = true := by
  have hsplit : merge_by_trackings_tuples st (pre ++ (tup, v) :: post)
      = merge_by_trackings_tuples
          (merge_tuples_step (merge_by_trackings_tuples st pre) tup) post := by
    rw [merge_by_trackings_tuples, merge_by_trackings_tuples,
      merge_by_trackings_tuples, List.foldl_append, List.foldl_cons]
  constructor
  · intro x hx
    rw [hsplit]
    apply merge_by_trackings_tuples_keys_mono
    apply merge_tuples_step_keys_mono
    exact merge_by_trackings_tuples_keys_mono pre st x hx
  · intro t ht
    rw [hsplit]
    apply merge_by_trackings_tuples_keys_mono
    exact merge_tuples_step_keys_mem _ tup hlen hpresent t ht

/-- Witness for the amended claim C10: a tuple containing one indexed and one
fresh tracking leaves the pre-existing key w1 and the fresh tracking w2 both
as index keys. -/
theorem merge_by_trackings_tuples_inserts_tuple_keys_witness :
    (dictLookup
      (merge_by_trackings_tuples
        ⟨[("w1", 0)], [0],
          fun _ => { orders := ∅, trackings := {"w1"}, group := some "g",
                     expected_cost := 0, tracked_cost := 0,
                     last_ship_date := "0", purchase_orders := ∅ }⟩
        ([] ++ (["w1", "w2"], ("g", (3 : ℤ))) :: [])).index "w1").isSome
      = true ∧
    (dictLookup
      (merge_by_trackings_tuples
        ⟨[("w1", 0)], [0],
          fun _ => { orders := ∅, trackings := {"w1"}, group := some "g",
                     expected_cost := 0, tracked_cost := 0,
                     last_ship_date := "0", purchase_orders := ∅ }⟩
        ([] ++ (["w1", "w2"], ("g", (3 : ℤ))) :: [])).index "w2").isSome
      = true :=
  ⟨(merge_by_trackings_tuples_inserts_tuple_keys _ [] [] ["w1", "w2"]
      ("g", 3) (by decide) (by decide)).1 "w1" (by decide),
   (merge_by_trackings_tuples_inserts_tuple_keys _ [] [] ["w1", "w2"]
      ("g", 3) (by decide) (by decide)).2 "w2" (by decide)⟩

/-- Three singleton clusters for the overlapping-tuples scenario. -/
def c10Heap : Heap := fun i =>
  if i = 0 then
    { orders := ∅, trackings := {"a"}, group := some "g", expected_cost := 0,
      tracked_cost := 0, last_ship_date := "0", purchase_orders := ∅ }
  else if i = 1 then
    { orders := ∅, trackings := {"b"}, group := some "g", expected_cost := 0,
      tracked_cost := 0, last_ship_date := "0", purchase_orders := ∅ }
  else if i = 2 then
    { orders := ∅, trackings := {"c"}, group := some "g", expected_cost := 0,
      tracked_cost := 0, last_ship_date := "0", purchase_orders := ∅ }
  else default

/-- Index {a: 0, b: 1, c: 2} over the heap above. -/
def c10Start : MState :=
  { index := [("a", 0), ("b", 1), ("c", 2)], all_clusters := [0, 1, 2],
    heap := c10Heap }

/-- Tuples (a,b) then (c,b), in that order. -/
def c10T2c : List (List String × (String × ℤ)) :=
  [(["a", "b"], ("g", 0)), (["c", "b"], ("g", 0))]

/-- Claim C10 counterexample: tuple (a,b) qualifies (both members indexed)
and its first candidate is cluster 0, but the later overlapping tuple (c,b)
remaps b to its own first candidate, cluster 2; in the final index b is not
mapped to tuple (a,b)'s first candidate — neither as an object (2 is not 0)
nor by content (the two clusters hold different trackings). -/
theorem merge_by_trackings_tuples_remaps_overlapping_key :
    ((["a", "b"].filterMap (fun t => dictLookup c10Start.index t)).head?
        = some 0) ∧
    dictLookup (merge_by_trackings_tuples c10Start c10T2c).index "b"
        = some 2 ∧
    (merge_by_trackings_tuples c10Start c10T2c).heap 2 ≠
      (merge_by_trackings_tuples c10Start c10T2c).heap 0 := by decide

end OrderTracking
